import Mathlib

/-!
# Verification of `rayopt` `System` (src/rayopt/system.py)

Shallow embedding of the `System` class of pyrayopt: the sequential
propagation engine (`propagate`, `propagate_through`, `height_at_aperture`),
the ray-aiming solver (`chief_and_marginal` with its inner `stop_for_pos`),
the system-assembly glue (`revert`, `__add__`) and the optimization
objective (`optimize.objective_function`).

Conventions of the embedding:
* Python/numpy floats are modelled as rationals `ℚ` (exact arithmetic;
  note that `ℚ` division by zero yields `0` where numpy would produce
  `inf`/`nan` — none of the verified statements depend on that case).
* numpy 1-D arrays and numpy scalars flowing through the aiming solver are
  modelled by the tagged value type `Val` (`Val.s` a scalar, `Val.v` a 1-D
  array), with numpy's broadcasting, indexing and tuple-unpacking rules.
* Fallible Python code (exceptions) returns `Except Err _` / `Option _`.
* Mutation of the `System` inside `revert`, `__add__` and
  `objective_function` is modelled by explicit state passing; for `__add__`,
  whose contract is about object identity, systems live in an explicit
  store `Store := Ref → System`.
* The element layer (`rayopt/elements.py`) is not part of the source under
  verification; per the spec ("Element capability surface consumed") each
  element carries its capabilities as record fields: a `propagate`
  capability `prop : Rays → Rays × Rays`, a reversal capability
  `revcap` acting on its internal orientation state `core`, a class tag
  `cls` (the spec's element variants `{Object, Surface, Aperture, Image}`;
  `isinstance(e, Aperture)` tests `cls = ElemClass.aperture`), an `origin`
  3-vector, a clear-aperture `radius`, and an optional `material`
  (`hasattr(e, "material")` is `material.isSome`).
-/

namespace Rayopt

/-- Rational 3-vector: the `origin` arrays of elements and of the image. -/
abbrev Vec3 : Type := ℚ × ℚ × ℚ

/-- Modelled from the spec: a material object (glass) from the element
layer; only its identity matters to the verified code, so it is a wrapped
tag. -/
structure Material where
  tag : ℚ
deriving DecidableEq, Repr

/-- Python exception kinds that the embedded code can raise. -/
inductive Err where
  | assertionError
  | attributeError
  | indexError
  | typeError
  | valueError
deriving DecidableEq, Repr

deriving instance DecidableEq for Except

/-- A batch of rays: `Rays(wavelength=..., height=...)` with `positions`,
`angles` and (after propagation) `end_positions`, each one row per ray. -/
structure Rays where
  wavelength : ℚ
  height : ℚ × ℚ
  positions : List Vec3
  angles : List Vec3
  end_positions : List Vec3
deriving DecidableEq, Repr

/-- Modelled from the spec: the runtime class of a chain element
(`rayopt/elements.py` is outside the verified source); `aperture` is the
`Aperture` class marking the stop, `surface` any other chain element.  The
`Aperture` name used by `system.py`'s `isinstance` tests resolves to this
class of the element layer. -/
inductive ElemClass where
  | surface
  | aperture
deriving DecidableEq, Repr

/-- A chain element, carrying the attribute/capability surface that
`system.py` consumes: class tag, `origin`, `radius`, optional `material`,
and — modelled from the spec — its internal orientation state `core`
together with its `revert` capability `revcap` (which flips only that
internal state; origins and materials are reassigned by `System.revert`
itself) and its `propagate` capability `prop`, returning the pair that the
generator in `System.propagate` destructures as `a_rays, rays`. -/
structure Element where
  cls : ElemClass
  origin : Vec3
  radius : ℚ
  material : Option Material
  core : ℚ
  revcap : ℚ → ℚ
  prop : Rays → Rays × Rays

/-- The `Object` instance of a system (modelled from the spec: object-side
capability surface `rays_to_height`, material, radius). -/
structure Object where
  material : Material
  radius : ℚ
  rays_to_height : (ℚ × ℚ) → (ℚ × ℚ) → List Vec3 × List Vec3
  prop : Rays → Rays × Rays

/-- The `Image` instance of a system. -/
structure Image where
  origin : Vec3
  radius : ℚ
  prop : Rays → Rays × Rays

/-- The `System` HasTraits class: name, wavelengths, field heights,
temperature, scale, object, ordered element chain, image. -/
structure System where
  name : String
  wavelengths : List ℚ
  heights : List (ℚ × ℚ)
  temperature : ℚ
  scale : ℚ
  object : Object
  elements : List Element
  image : Image

/-- An entry of the full chain `[self.object] + self.elements + [self.image]`
walked by `System.propagate`. -/
inductive Entity where
  | obj (o : Object)
  | elem (e : Element)
  | img (i : Image)

/-- `isinstance(element, Aperture)` on a chain-walk entry: only a chain
element whose class is `Aperture` tests true (the `Object`/`Image` classes
are not `Aperture` subclasses). -/
def Entity.isAperture : Entity → Bool
  | .elem e => e.cls == ElemClass.aperture
  | _ => false

/-- `element.radius` on a chain-walk entry. -/
def Entity.radius : Entity → ℚ
  | .obj o => o.radius
  | .elem e => e.radius
  | .img i => i.radius

/-- `element.propagate(rays)` on a chain-walk entry. -/
def Entity.propagateCap : Entity → Rays → Rays × Rays
  | .obj o => o.prop
  | .elem e => e.prop
  | .img i => i.prop

/-- The loop body of `System.propagate`: for each zipped pair `(a, b)`,
`a_rays, rays = b.propagate(rays)` then `yield a, a_rays`; returns the
yielded pairs and the final threaded `rays`. -/
def propGo : List (Entity × Entity) → Rays → List (Entity × Rays) × Rays
  | [], r => ([], r)
  | (a, b) :: rest, r =>
    let pr := b.propagateCap r
    let next := propGo rest pr.2
    ((a, pr.1) :: next.1, next.2)

/-- `System.propagate`: walk
`zip([self.object] + self.elements, self.elements + [self.image])`,
yielding `(a, a_rays)` per pair and finally `yield b, rays` with `b` the
last pair's second component (the zip is never empty, so `b` is bound). -/
def System.propagate (s : System) (r : Rays) : List (Entity × Rays) :=
  let pairs := List.zip (Entity.obj s.object :: s.elements.map Entity.elem)
                        (s.elements.map Entity.elem ++ [Entity.img s.image])
  match pairs.getLast? with
  | some pab =>
    let res := propGo pairs r
    res.1 ++ [(pab.2, res.2)]
  | none => []

/-- `System.propagate_through`: drain `propagate` keeping only the last
`rays` value (the loop variable after `for element, rays in ...: pass`). -/
def System.propagate_through (s : System) (r : Rays) : Rays :=
  (s.propagate r).foldl (fun _ p => p.2) r

/-- `System.height_at_aperture`: drain `propagate` until the first entry
whose element is an `Aperture`, returning
`in_rays.end_positions[...,(0,1)] / element.radius`; `none` (Python
`None`) when no such element exists. -/
def System.height_at_aperture (s : System) (r : Rays) : Option (List (ℚ × ℚ)) :=
  (s.propagate r).findSome? fun p =>
    if p.1.isAperture then
      some (p.2.end_positions.map fun q => (q.1 / p.1.radius, q.2.1 / p.1.radius))
    else none

end Rayopt

namespace Rayopt

/-! ## `System.revert` -/

/-- The material-threading loop of `revert`:
`for e in self.elements: if hasattr(e, "material"): m, e.material = e.material, m`;
returns the final thread value and the updated element list. -/
def matSwap : Material → List Element → Material × List Element
  | m, [] => (m, [])
  | m, e :: es =>
    match e.material with
    | some em =>
      let res := matSwap em es
      (res.1, { e with material := some m } :: res.2)
    | none =>
      let res := matSwap m es
      (res.1, e :: res.2)

/-- The origin-swapping loop of `revert`:
`for e in self.elements: e.revert(); d, e.origin = e.origin, d`;
returns the final thread value and the updated element list. -/
def originSwap : Vec3 → List Element → Vec3 × List Element
  | d, [] => (d, [])
  | d, e :: es =>
    let e1 := { e with core := e.revcap e.core }
    let res := originSwap e1.origin es
    (res.1, { e1 with origin := d } :: res.2)

/-- `System.revert`: swap the material attribution forward through the
chain (object takes the last element's material — `AttributeError` if the
last element has none, `IndexError` if the chain is empty), hand the image
origin to the chain, reverse the element order, then swap origins backward
while calling each element's own `revert()`. -/
def System.revert (s : System) : Except Err System :=
  match s.elements.getLast? with
  | none => Except.error Err.indexError
  | some eLast =>
    match eLast.material with
    | none => Except.error Err.attributeError
    | some lastM =>
      let obj1 := { s.object with material := lastM }
      let els1 := (matSwap s.object.material s.elements).2
      let d := s.image.origin
      match els1.head? with
      | none => Except.error Err.indexError
      | some eh =>
        let img1 := { s.image with origin := eh.origin }
        let els3 := (originSwap d els1.reverse).2
        Except.ok { s with object := obj1, elements := els3, image := img1 }

/-- Double application of an element's own reversal capability: what a
round trip of `System.revert` leaves on each element (everything except
the internal orientation state is restored exactly). -/
def dblrev (e : Element) : Element :=
  { e with core := e.revcap (e.revcap e.core) }

/-! ### Decomposition of `revert` into its material and geometry actions
(proof infrastructure: `matSwap` only touches materials, `originSwap`
only touches the rest, so each loop is analysed on its own projection). -/

/-- An element with its material attribution split off. -/
structure ElemRest where
  cls : ElemClass
  origin : Vec3
  radius : ℚ
  core : ℚ
  revcap : ℚ → ℚ
  prop : Rays → Rays × Rays

/-- Projection of an element onto everything but its material. -/
def Element.rest (e : Element) : ElemRest :=
  ⟨e.cls, e.origin, e.radius, e.core, e.revcap, e.prop⟩

/-- Reassemble an element from a material attribution and the rest. -/
def mkE (m : Option Material) (r : ElemRest) : Element :=
  ⟨r.cls, r.origin, r.radius, m, r.core, r.revcap, r.prop⟩

/-- The action of the material-threading loop on the material sequence
alone: each material-bearing position receives the thread, which then
picks up that position's previous material. -/
def newMats : Material → List (Option Material) → List (Option Material)
  | _, [] => []
  | m, none :: tl => none :: newMats m tl
  | m, some mm :: tl => some m :: newMats mm tl

/-- The thread value left after running the material loop over a
sequence: the last material present, if any. -/
def threadOut : Material → List (Option Material) → Material
  | m, [] => m
  | m, none :: tl => threadOut m tl
  | _, some mm :: tl => threadOut mm tl

/-- The action of the origin-swapping loop on the material-free parts. -/
def restSwap : Vec3 → List ElemRest → Vec3 × List ElemRest
  | d, [] => (d, [])
  | d, r :: rs =>
    let r1 := { r with core := r.revcap r.core }
    let res := restSwap r1.origin rs
    (res.1, { r1 with origin := d } :: res.2)

/-- `dblrev` on the material-free part. -/
def dblR (r : ElemRest) : ElemRest :=
  { r with core := r.revcap (r.revcap r.core) }

/-! ## numpy values inside the ray-aiming solver -/

/-- A numpy value flowing through `chief_and_marginal`: a scalar or a 1-D
array. -/
inductive Val where
  | s (q : ℚ)
  | v (l : List ℚ)
deriving DecidableEq, Repr

/-- numpy elementwise binary operation with scalar broadcasting; arrays of
unequal lengths do not broadcast (`ValueError`). -/
def vbin (f : ℚ → ℚ → ℚ) : Val → Val → Except Err Val
  | .s a, .s b => Except.ok (.s (f a b))
  | .s a, .v l => Except.ok (.v (l.map (fun x => f a x)))
  | .v l, .s b => Except.ok (.v (l.map (fun x => f x b)))
  | .v l, .v m =>
    if l.length = m.length then Except.ok (.v (l.zipWith f m))
    else Except.error Err.valueError

/-- numpy `+`. -/
def vadd : Val → Val → Except Err Val := vbin (fun a b => a + b)

/-- numpy `-`. -/
def vsub : Val → Val → Except Err Val := vbin (fun a b => a - b)

/-- numpy `*`. -/
def vmul : Val → Val → Except Err Val := vbin (fun a b => a * b)

/-- numpy `/` (in this `ℚ` model a zero divisor yields `0` where numpy
produces `inf`/`nan`; no verified statement depends on that case). -/
def vdiv : Val → Val → Except Err Val := vbin (fun a b => a / b)

/-- numpy integer indexing `x[i]`, as the scalar it returns. -/
def vidxq : Val → Nat → Except Err ℚ
  | .s _, _ => Except.error Err.indexError
  | .v l, i =>
    match l.get? i with
    | some q => Except.ok q
    | none => Except.error Err.indexError

/-- Python tuple unpacking `x, y = val` of a length-2 numpy array. -/
def vunpack2 : Val → Except Err (ℚ × ℚ)
  | .v [a, b] => Except.ok (a, b)
  | .v _ => Except.error Err.valueError
  | .s _ => Except.error Err.typeError

/-- Shape test: is this numpy value a 2-vector (1-D array of length 2)? -/
def Val.isVec2 : Val → Bool
  | .v [_, _] => true
  | _ => false

/-! ## `System.chief_and_marginal` -/

/-- The external root-finding collaborators (`scipy.optimize.newton` and
`scipy.optimize.fsolve`), modelled from the spec as opaque solvers:
`newton` takes a scalar function and an initial guess and returns a scalar
root or a failure; `fsolve` takes a vector function, an initial guess, the
`xtol` and `epsfcn` settings, and returns a vector root (of the shape of
the initial guess) or a failure.  A function argument that itself raises
propagates the failure. -/
structure Solvers where
  newton : (ℚ → Except Err ℚ) → ℚ → Except Err ℚ
  fsolve : ((ℚ × ℚ) → Except Err Val) → (ℚ × ℚ) → ℚ → ℚ → Except Err (ℚ × ℚ)

/-- The hand-tuned probe step `d = 1e-3` of `chief_and_marginal`
("arbitrary to get newton started"). -/
def probeStep : ℚ := 1 / 1000

/-- The inner closure `stop_for_pos(x, y)` of `chief_and_marginal`:
overwrite the template rays' `positions, angles` from
`object.rays_to_height((x, y), height)`, then take
`height_at_aperture(rays)[0]` — `TypeError` when `height_at_aperture`
returned `None`, `IndexError` when the batch is empty; otherwise the first
ray's normalized `(x, y)` pupil coordinate as a length-2 array. -/
def System.stop_for_pos (s : System) (height : ℚ × ℚ) (rays : Rays) (x y : ℚ) :
    Except Err Val :=
  let pa := s.object.rays_to_height (x, y) height
  let rays1 := { rays with positions := pa.1, angles := pa.2 }
  match s.height_at_aperture rays1 with
  | none => Except.error Err.typeError
  | some hs =>
    match hs.head? with
    | none => Except.error Err.indexError
    | some h0 => Except.ok (Val.v [h0.1, h0.2])

/-- The paraxial chief branch: `d0 = stop_for_pos(0,0)` then
`chief = -d*d0/(stop_for_pos(d,d)-d0)`. -/
def paraxialChief (f : ℚ → ℚ → Except Err Val) : Except Err Val := do
  let d0 ← f 0 0
  let fd ← f probeStep probeStep
  let num ← vmul (Val.s (-probeStep)) d0
  let den ← vsub fd d0
  vdiv num den

/-- The exact chief branch:
`chief = fsolve(lambda p: stop_for_pos(*p), (0,0), xtol=1e-2, epsfcn=d)`
(scipy returns an array of the shape of the initial guess). -/
def exactChief (sv : Solvers) (f : ℚ → ℚ → Except Err Val) : Except Err Val := do
  let c ← sv.fsolve (fun p => f p.1 p.2) (0, 0) (1 / 100) probeStep
  Except.ok (Val.v [c.1, c.2])

/-- The marginal phase of `chief_and_marginal`, producing the returned
`(chief, (marg_px, marg_nx, marg_py, marg_ny))`.  Paraxial:
`dmarg = d/(stop_for_pos(*(chief+d))-stop_for_pos(*chief))`, then the two
tuple unpackings `marg_px, marg_py = chief+dmarg` and
`marg_nx, marg_ny = chief-dmarg`.  Exact: four independent scalar `newton`
root finds (`chief[0]`/`chief[1]` evaluate to the same scalars whether read
eagerly or inside each lambda, so they are bound once here). -/
def marginalPhase (sv : Solvers) (f : ℚ → ℚ → Except Err Val) (chief : Val)
    (paraxial_marginal : Bool) : Except Err (Val × (Val × Val × Val × Val)) :=
  if paraxial_marginal then do
    let cd ← vadd chief (Val.s probeStep)
    let cdp ← vunpack2 cd
    let f1 ← f cdp.1 cdp.2
    let cp ← vunpack2 chief
    let f0 ← f cp.1 cp.2
    let den ← vsub f1 f0
    let dmarg ← vdiv (Val.s probeStep) den
    let mp ← vadd chief dmarg
    let mn ← vsub chief dmarg
    let mpp ← vunpack2 mp
    let mnp ← vunpack2 mn
    Except.ok (chief, (Val.s mpp.1, Val.s mnp.1, Val.s mpp.2, Val.s mnp.2))
  else do
    let c0 ← vidxq chief 0
    let c1 ← vidxq chief 1
    let px ← sv.newton (fun x => do Except.ok ((← vidxq (← f x c1) 0) - 1)) (c0 + probeStep)
    let nx ← sv.newton (fun x => do Except.ok ((← vidxq (← f x c1) 0) + 1)) (c0 - probeStep)
    let py ← sv.newton (fun y => do Except.ok ((← vidxq (← f c0 y) 1) - 1)) (c1 + probeStep)
    let ny ← sv.newton (fun y => do Except.ok ((← vidxq (← f c0 y) 1) + 1)) (c1 - probeStep)
    Except.ok (chief, (Val.s px, Val.s nx, Val.s py, Val.s ny))

/-- `System.chief_and_marginal`: assert that exactly one chain element is
an `Aperture` (before anything else — `AssertionError` otherwise), then
run the selected chief strategy followed by the selected marginal
strategy over `stop_for_pos`. -/
def System.chief_and_marginal (s : System) (sv : Solvers) (height : ℚ × ℚ)
    (rays : Rays) (paraxial_chief paraxial_marginal : Bool) :
    Except Err (Val × (Val × Val × Val × Val)) :=
  if s.elements.countP (fun e => e.cls == ElemClass.aperture) = 1 then do
    let f := s.stop_for_pos height rays
    let chief ← if paraxial_chief then paraxialChief f else exactChief sv f
    marginalPhase sv f chief paraxial_marginal
  else Except.error Err.assertionError

/-! ## `System.optimize`: the objective function -/

/-- Modelled from the spec: `ParaxialTrace(self)` — a derived, read-only
snapshot computed from (and here simply holding) the System at trace
time. -/
structure ParaxTrace where
  snapshot : System

/-- `System.paraxial_trace()`. -/
def System.paraxial_trace (s : System) : ParaxTrace := ⟨s⟩

/-- An optimization parameter: the accessor pair over a `System`, numeric
bounds and a finite-difference scale. -/
structure Parameter where
  get_value : System → ℚ
  set_value : System → ℚ → System
  bounds : ℚ × ℚ
  scale : ℚ

/-- A demerit term: `de(system, paraxial_trace, ray_results)` already
flattened (`np.array(...).reshape((-1,))`), plus its weight. -/
structure Demerit where
  eval : System → ParaxTrace → List Rays → List ℚ
  weight : ℚ

/-- The parameter-writing loop
`for i, p in enumerate(parameters): p.set_value(self, x[i])`; `x[i]` past
the end of `x` is an `IndexError`. -/
def setParams : System → List Parameter → List ℚ → Except Err System
  | s, [], _ => Except.ok s
  | s, p :: ps, x :: xs => setParams (p.set_value s x) ps xs
  | _, _ :: _, [] => Except.error Err.indexError

/-- `np.concatenate`, which rejects an empty list of arrays. -/
def npConcatenate (d : List (List ℚ)) : Except Err (List ℚ) :=
  if d.isEmpty then Except.error Err.valueError else Except.ok d.flatten

/-- The inner `objective_function(x)` of `System.optimize`: write `x` into
the system through each `Parameter`, recompute the paraxial trace,
propagate every supplied ray bundle through the updated system, evaluate
each demerit on `(system, trace, ray_results)` scaled by its weight, and
concatenate. -/
def System.objective_function (s : System) (rays : List Rays)
    (parameters : List Parameter) (demerits : List Demerit) (x : List ℚ) :
    Except Err (List ℚ) := do
  let s1 ← setParams s parameters x
  let p := s1.paraxial_trace
  let r := rays.map fun ir => s1.propagate_through ir
  let d := demerits.map fun de => (de.eval s1 p r).map fun q => q * de.weight
  npConcatenate d

/-! ## `System.__add__` (store model, for object identity) -/

/-- A reference to a Python `System` object. -/
abbrev Ref : Type := Nat

/-- The heap of `System` objects. -/
abbrev Store : Type := Ref → System

/-- `System.__add__`: `self.elements += other.elements; return self` —
reads `other.elements` (possibly `self`'s own list when aliased), extends
`self.elements` in place, and returns the very reference `self`. -/
def addSys (r1 r2 : Ref) (σ : Store) : Ref × Store :=
  let s1 := σ r1
  let s2 := σ r2
  (r1, fun r => if r = r1 then { s1 with elements := s1.elements ++ s2.elements } else σ r)

/-! ## Concrete fixtures (used by witnesses and counterexamples) -/

/-- An identity-like propagate capability: rays pass through unchanged. -/
def passProp : Rays → Rays × Rays := fun r => (r, r)

/-- A propagate capability whose outgoing rays record their launch
positions as end positions. -/
def markProp : Rays → Rays × Rays :=
  fun r => (r, { r with end_positions := r.positions })

/-- An empty template ray batch. -/
def raysW : Rays :=
  { wavelength := 1, height := (0, 0), positions := [], angles := [], end_positions := [] }

/-- A concrete object whose `rays_to_height((x,y), h)` launches the single
ray at `(x, y, 0)`. -/
def objW : Object :=
  { material := ⟨1⟩, radius := 1
    rays_to_height := fun xy _ => ([(xy.1, xy.2, 0)], [(xy.1, xy.2, 0)])
    prop := passProp }

/-- A concrete image plane. -/
def imgW : Image := { origin := (0, 0, 7), radius := 1, prop := passProp }

/-- An aperture element (stop) of radius 1, carrying no `material`
attribute. -/
def apElem : Element :=
  { cls := ElemClass.aperture, origin := (0, 0, 1), radius := 1
    material := none, core := 0, revcap := fun c => c, prop := markProp }

/-- An ordinary surface element with a material. -/
def surfW1 : Element :=
  { cls := ElemClass.surface, origin := (1, 0, 2), radius := 2
    material := some ⟨10⟩, core := 3, revcap := fun c => -c, prop := passProp }

/-- A second surface element with a material. -/
def surfW2 : Element :=
  { cls := ElemClass.surface, origin := (0, 1, 4), radius := 3
    material := some ⟨20⟩, core := 5, revcap := fun c => c + 1, prop := passProp }

/-- A system with a single aperture stop, on which the aiming solver runs
end to end: `stop_for_pos` evaluates to `[x, y]`. -/
def sCM : System :=
  { name := "cm", wavelengths := [1], heights := [(0, 0)], temperature := 21
    scale := 1 / 1000, object := objW, elements := [apElem], image := imgW }

/-- A two-surface system (both surfaces carry materials, no aperture). -/
def sRev : System :=
  { name := "rev", wavelengths := [1], heights := [], temperature := 21
    scale := 1 / 1000, object := objW, elements := [surfW1, surfW2], image := imgW }

/-- A system whose first chain element (an aperture) lacks a `material`
attribute while the last one carries one: the first `revert()` succeeds
and mutates, the second raises. -/
def sRevBad : System :=
  { name := "bad", wavelengths := [], heights := [], temperature := 21
    scale := 1 / 1000, object := objW, elements := [apElem, surfW1], image := imgW }

/-- Trivial solver collaborators (never consulted by the statements that
use them). -/
def svId : Solvers :=
  { newton := fun _ x => Except.ok x, fsolve := fun _ x _ _ => Except.ok x }

/-- A one-system store (every reference aliases the same system). -/
def σW : Store := fun _ => sRev

/-- A store holding `sRev` at reference 0 and `sCM` elsewhere. -/
def σW2 : Store := fun r => if r = 0 then sRev else sCM

/-- A parameter that ignores writes (its target value is fixed). -/
def pW : Parameter :=
  { get_value := fun _ => 0, set_value := fun s _ => s, bounds := (0, 1), scale := 1 }

/-- A constant two-component demerit of weight 5. -/
def deW : Demerit := { eval := fun _ _ _ => [2, 3], weight := 5 }

end Rayopt

namespace Rayopt

/-! ## Helper lemmas: the propagation walk -/

/-- The loop of `propagate` yields one pair per zipped pair, keeping the
first components. -/
theorem propGo_fst (ps : List (Entity × Entity)) (r : Rays) :
    (propGo ps r).1.map Prod.fst = ps.map Prod.fst := by
  induction ps generalizing r with
  | nil => rfl
  | cons p rest ih => simpa [propGo] using ih _

/-- The loop of `propagate` yields exactly one pair per zipped pair. -/
theorem propGo_length (ps : List (Entity × Entity)) (r : Rays) :
    (propGo ps r).1.length = ps.length := by
  induction ps generalizing r with
  | nil => rfl
  | cons p rest ih => simpa [propGo] using ih _

/-- The last entry of `zip (a :: as) (bs ++ [b])` for equally long `as`,
`bs` pairs something with `b`. -/
theorem zip_concat_getLast (b : β) :
    ∀ (as : List α) (bs : List β) (a : α), as.length = bs.length →
      ∃ x, ((a :: as).zip (bs ++ [b])).getLast? = some (x, b) := by
  intro as
  induction as with
  | nil =>
    intro bs a h
    match bs with
    | [] => exact ⟨a, rfl⟩
    | b2 :: bs2 => simp at h
  | cons a2 as ih =>
    intro bs a h
    match bs with
    | [] => simp at h
    | b2 :: bs2 =>
      obtain ⟨x, hx⟩ := ih bs2 a2 (by simpa using h)
      refine ⟨x, ?_⟩
      match h2 : bs2 ++ [b] with
      | [] => exact absurd h2 (by simp)
      | c :: cs =>
        rw [h2] at hx
        simp only [List.cons_append, List.zip_cons_cons, h2] at hx ⊢
        rw [List.getLast?_cons_cons]
        exact hx

/-- Normal form of `System.propagate`: the loop's yields followed by the
final `yield b, rays` with `b` the image. -/
theorem propagate_eq (s : System) (r : Rays) :
    s.propagate r
      = (propGo (List.zip (Entity.obj s.object :: s.elements.map Entity.elem)
          (s.elements.map Entity.elem ++ [Entity.img s.image])) r).1
        ++ [(Entity.img s.image,
             (propGo (List.zip (Entity.obj s.object :: s.elements.map Entity.elem)
               (s.elements.map Entity.elem ++ [Entity.img s.image])) r).2)] := by
  obtain ⟨x, hx⟩ := zip_concat_getLast (Entity.img s.image) (s.elements.map Entity.elem)
    (s.elements.map Entity.elem) (Entity.obj s.object) rfl
  unfold System.propagate
  simp only [hx]

/-- The first components of the pairs yielded by `propagate` are the full
chain front to back: Object, the chain elements in order, Image. -/
theorem propagate_map_fst (s : System) (r : Rays) :
    (s.propagate r).map Prod.fst
      = Entity.obj s.object :: (s.elements.map Entity.elem ++ [Entity.img s.image]) := by
  rw [propagate_eq]
  rw [List.map_append, propGo_fst]
  rw [List.map_fst_zip _ _ (by simp)]
  rfl

end Rayopt

namespace Rayopt

/-! ## Claims C5, C3, C2 -/

/-- **C5.** For every System with `n` elements and every rays input,
`propagate(rays)` yields exactly `n + 2` pairs whose element components
are the Object, the `n` chain elements in front-to-back order, then the
Image, with no reordering; and `propagate_through(rays)` returns exactly
the rays component of the final pair of that sequence.  (The per-element
rays are produced by each element's own `propagate` capability, which is
modelled abstractly.) -/
theorem propagate_chain_order_and_drain (s : System) (r : Rays) :
    (s.propagate r).map Prod.fst
      = Entity.obj s.object :: (s.elements.map Entity.elem ++ [Entity.img s.image])
    ∧ (s.propagate r).length = s.elements.length + 2
    ∧ ∃ pLast, (s.propagate r).getLast? = some pLast ∧ s.propagate_through r = pLast.2 := by
  refine ⟨propagate_map_fst s r, ?_, ?_⟩
  · have h := congrArg List.length (propagate_map_fst s r)
    simpa using h
  · refine ⟨(Entity.img s.image,
      (propGo (List.zip (Entity.obj s.object :: s.elements.map Entity.elem)
        (s.elements.map Entity.elem ++ [Entity.img s.image])) r).2), ?_, ?_⟩
    · rw [propagate_eq]
      exact List.getLast?_concat _
    · unfold System.propagate_through
      rw [propagate_eq, List.foldl_append]
      rfl

/-- **C3.** `height_at_aperture` on a System whose chain contains no
Aperture-typed element returns no value (`None`), never a height measured
at some other element. -/
theorem height_at_aperture_no_stop (s : System) (r : Rays)
    (h : ∀ e ∈ s.elements, e.cls ≠ ElemClass.aperture) :
    s.height_at_aperture r = none := by
  unfold System.height_at_aperture
  rw [List.findSome?_eq_none_iff]
  intro p hp
  have hfst : p.1 ∈ (s.propagate r).map Prod.fst := List.mem_map_of_mem Prod.fst hp
  rw [propagate_map_fst] at hfst
  have hap : p.1.isAperture = false := by
    rcases List.mem_cons.mp hfst with h1 | h2
    · rw [h1]; rfl
    · rcases List.mem_append.mp h2 with h3 | h4
      · obtain ⟨e, he, hee⟩ := List.mem_map.mp h3
        rw [← hee]
        simpa [Entity.isAperture] using h e he
      · rw [List.mem_singleton.mp h4]; rfl
  simp [hap]

/-- Witness for C3: a concrete aperture-free system. -/
theorem height_at_aperture_no_stop_witness :
    (∀ e ∈ sRev.elements, e.cls ≠ ElemClass.aperture)
    ∧ sRev.height_at_aperture raysW = none :=
  ⟨by decide, height_at_aperture_no_stop sRev raysW (by decide)⟩

/-- A successful `findSome?` is decided by the first element on which the
function fires, everything before it declining. -/
theorem findSome?_first_hit (f : α → Option β) :
    ∀ l : List α, (∃ a ∈ l, (f a).isSome) →
      ∃ pre x rest, l = pre ++ x :: rest ∧ (∀ a ∈ pre, f a = none)
        ∧ l.findSome? f = f x ∧ (f x).isSome := by
  intro l
  induction l with
  | nil => rintro ⟨a, ha, _⟩; exact absurd ha (by simp)
  | cons b t ih =>
    rintro ⟨a, ha, hfa⟩
    cases hb : f b with
    | some v =>
      exact ⟨[], b, t, rfl, by simp, by simp [List.findSome?_cons, hb], by simp [hb]⟩
    | none =>
      have hat : ∃ a ∈ t, (f a).isSome := by
        rcases List.mem_cons.mp ha with h1 | h2
        · rw [h1, hb] at hfa; simp at hfa
        · exact ⟨a, h2, hfa⟩
      obtain ⟨pre, x, rest, heq, hpre, hfind, hsome⟩ := ih hat
      refine ⟨b :: pre, x, rest, by rw [heq]; rfl, ?_, ?_, hsome⟩
      · intro a ha2
        rcases List.mem_cons.mp ha2 with h1 | h2
        · rw [h1]; exact hb
        · exact hpre a h2
      · rw [List.findSome?_cons, hb]; exact hfind

/-- **C6.** On a System whose chain contains at least one Aperture,
`height_at_aperture(rays)` returns the per-ray `(x, y)` end positions of
the rays paired with the *first* Aperture element encountered in
propagation order, divided by that element's aperture radius; every pair
before that one in the walk is a non-Aperture entity. -/
theorem height_at_aperture_first_stop (s : System) (r : Rays)
    (h : ∃ e ∈ s.elements, e.cls = ElemClass.aperture) :
    ∃ pre entry rest,
      s.propagate r = pre ++ entry :: rest
      ∧ (∀ p ∈ pre, p.1.isAperture = false)
      ∧ entry.1.isAperture = true
      ∧ s.height_at_aperture r
          = some (entry.2.end_positions.map fun q =>
              (q.1 / entry.1.radius, q.2.1 / entry.1.radius)) := by
  obtain ⟨e, he, hcls⟩ := h
  have hmem : Entity.elem e ∈ (s.propagate r).map Prod.fst := by
    rw [propagate_map_fst]
    exact List.mem_cons_of_mem _ (List.mem_append_left _ (List.mem_map_of_mem _ he))
  obtain ⟨p0, hp0, hp0e⟩ := List.mem_map.mp hmem
  have hex : ∃ p ∈ s.propagate r,
      ((fun p : Entity × Rays => if p.1.isAperture then
          some (p.2.end_positions.map fun q =>
            (q.1 / p.1.radius, q.2.1 / p.1.radius)) else none) p).isSome := by
    refine ⟨p0, hp0, ?_⟩
    have : p0.1.isAperture = true := by
      rw [hp0e]
      simp [Entity.isAperture, hcls]
    simp [this]
  obtain ⟨pre, x, rest, heq, hpre, hfind, hsome⟩ := findSome?_first_hit _ _ hex
  have hx : x.1.isAperture = true := by
    by_contra hfalse
    rw [if_neg (by simpa using hfalse)] at hsome
    simp at hsome
  refine ⟨pre, x, rest, heq, ?_, hx, ?_⟩
  · intro p hp
    have := hpre p hp
    by_contra hfalse
    rw [if_pos (by simpa using hfalse)] at this
    simp at this
  · unfold System.height_at_aperture
    rw [hfind, if_pos hx]

/-- Witness for C6: the one-aperture system `sCM`. -/
theorem height_at_aperture_first_stop_witness :
    (∃ e ∈ sCM.elements, e.cls = ElemClass.aperture)
    ∧ ∃ pre entry rest,
        sCM.propagate raysW = pre ++ entry :: rest
        ∧ (∀ p ∈ pre, p.1.isAperture = false)
        ∧ entry.1.isAperture = true
        ∧ sCM.height_at_aperture raysW
            = some (entry.2.end_positions.map fun q =>
                (q.1 / entry.1.radius, q.2.1 / entry.1.radius)) :=
  ⟨by decide, height_at_aperture_first_stop sCM raysW (by decide)⟩

/-- **C2.** `chief_and_marginal` on a chain whose number of Aperture-typed
elements is not exactly one fails with `AssertionError`, deterministically
and immediately: the result is the assertion error for every solver
collaborator, rays input, field height and strategy selection, before any
`stop_for_pos` evaluation or aiming computation can occur — it never
silently picks one of the apertures. -/
theorem chief_and_marginal_assert (s : System) (sv : Solvers) (h : ℚ × ℚ)
    (r : Rays) (pc pm : Bool)
    (hcount : s.elements.countP (fun e => e.cls == ElemClass.aperture) ≠ 1) :
    s.chief_and_marginal sv h r pc pm = Except.error Err.assertionError := by
  unfold System.chief_and_marginal
  rw [if_neg hcount]

/-- Witness for C2: a concrete zero-aperture system. -/
theorem chief_and_marginal_assert_witness :
    sRev.elements.countP (fun e => e.cls == ElemClass.aperture) ≠ 1
    ∧ sRev.chief_and_marginal svId (0, 0) raysW true true
        = Except.error Err.assertionError :=
  ⟨by decide, chief_and_marginal_assert sRev svId (0, 0) raysW true true (by decide)⟩

/-! ## Claim C7 -/

/-- **C7.** The objective vector inside `optimize` is, for every parameter
vector `x` it accepts: write `x` into the System through each Parameter's
`set_value` (in order), recompute the ParaxialTrace, propagate every
supplied ray bundle through the updated System, then concatenate — in
demerit order — each demerit's flattened output on
`(system, trace, ray results)` scaled by its weight. -/
theorem objective_function_spec (s : System) (rays : List Rays)
    (parameters : List Parameter) (demerits : List Demerit) (x : List ℚ)
    (s1 : System) (hset : setParams s parameters x = Except.ok s1)
    (hd : demerits ≠ []) :
    s.objective_function rays parameters demerits x
      = Except.ok (List.flatten (demerits.map fun de =>
          (de.eval s1 s1.paraxial_trace (rays.map fun ir => s1.propagate_through ir)).map
            fun q => q * de.weight)) := by
  unfold System.objective_function
  rw [hset]
  show npConcatenate _ = _
  unfold npConcatenate
  rw [if_neg (by simpa using hd)]

/-- Witness for C7 on concrete data. -/
theorem objective_function_spec_witness :
    setParams sRev [pW] [3] = Except.ok sRev ∧ ([deW] : List Demerit) ≠ []
    ∧ sRev.objective_function [raysW] [pW] [deW] [3]
      = Except.ok (List.flatten (([deW] : List Demerit).map fun de =>
          (de.eval sRev sRev.paraxial_trace ([raysW].map fun ir =>
            sRev.propagate_through ir)).map fun q => q * de.weight)) :=
  ⟨rfl, by simp, objective_function_spec sRev [raysW] [pW] [deW] [3] sRev rfl (by simp)⟩

/-! ## Claims C10, C9: `__add__` -/

/-- **C10 (amended).** For distinct Systems `S1 ≠ S2`, `S1 + S2` returns
the very object `S1`, whose element list becomes `S1.elements ++
S2.elements` while all its other fields are untouched; `S2` (and every
other system) is left unchanged.  (When `S2` *is* `S1`, the shared element
list is doubled instead — see the counterexample.) -/
theorem addSys_spec (r1 r2 : Ref) (σ : Store) (hne : r1 ≠ r2) :
    (addSys r1 r2 σ).1 = r1
    ∧ (addSys r1 r2 σ).2 r1
        = { σ r1 with elements := (σ r1).elements ++ (σ r2).elements }
    ∧ (addSys r1 r2 σ).2 r2 = σ r2
    ∧ ∀ r, r ≠ r1 → (addSys r1 r2 σ).2 r = σ r := by
  refine ⟨rfl, by simp [addSys], by simp [addSys, Ne.symm hne], fun r hr => by simp [addSys, hr]⟩

/-- Counterexample to C10 as stated (universally over all pairs): calling
`S + S` on the very same object doubles its element list, so "S2's element
list is left unchanged" fails for the aliased pair.  Here `σW 0 = sRev`
has 2 elements; after `addSys 0 0` it has 4. -/
theorem addSys_alias_counterexample :
    ((addSys 0 0 σW).2 0).elements.length = 4
    ∧ (σW 0).elements.length = 2 := by
  constructor <;> rfl

/-- Witness for C10 on concrete distinct references. -/
theorem addSys_spec_witness :
    (0 : Ref) ≠ 1
    ∧ ((addSys 0 1 σW2).1 = 0
       ∧ (addSys 0 1 σW2).2 0
           = { σW2 0 with elements := (σW2 0).elements ++ (σW2 1).elements }
       ∧ (addSys 0 1 σW2).2 1 = σW2 1
       ∧ ∀ r, r ≠ 0 → (addSys 0 1 σW2).2 r = σW2 r) :=
  ⟨by decide, addSys_spec 0 1 σW2 (by decide)⟩

/-- **C9 (amended).** Chain concatenation with `+` is associative in the
resulting element order provided `S1` is a distinct object from `S2` and
from `S3`: the element list of `(S1 + S2) + S3` equals that of
`S1 + (S2 + S3)` element for element.  (If `S1` aliases `S2` or `S3`, the
in-place mutation breaks this — see the counterexample.) -/
theorem addSys_assoc (r1 r2 r3 : Ref) (σ : Store) (h12 : r1 ≠ r2) (h13 : r1 ≠ r3) :
    ((addSys (addSys r1 r2 σ).1 r3 (addSys r1 r2 σ).2).2
        ((addSys (addSys r1 r2 σ).1 r3 (addSys r1 r2 σ).2).1)).elements
    = ((addSys r1 (addSys r2 r3 σ).1 (addSys r2 r3 σ).2).2
        ((addSys r1 (addSys r2 r3 σ).1 (addSys r2 r3 σ).2).1)).elements := by
  simp [addSys, h12, h13, Ne.symm h12, Ne.symm h13, List.append_assoc]

/-- Counterexample to C9 as stated (universally over all triples): with
`S1 = S2` aliased (and distinct from `S3`), `(S1+S1)+S3` has
`2·|e1| + |e3|` elements while `S1+(S1+S3)` has `2·(|e1|+|e3|)`.  Here
`|e1| = 2`, `|e3| = 1`: 5 versus 6 elements. -/
theorem addSys_assoc_counterexample :
    ((addSys (addSys 0 0 σW2).1 1 (addSys 0 0 σW2).2).2
        ((addSys (addSys 0 0 σW2).1 1 (addSys 0 0 σW2).2).1)).elements.length = 5
    ∧ ((addSys 0 (addSys 0 1 σW2).1 (addSys 0 1 σW2).2).2
        ((addSys 0 (addSys 0 1 σW2).1 (addSys 0 1 σW2).2).1)).elements.length = 6 := by
  constructor <;> rfl

/-! ## Helper lemmas: the `revert` round trip -/

/-- `Except.ok` feeds the bound continuation directly. -/
theorem except_ok_bind (a : α) (f : α → Except ε β) :
    (Except.ok a >>= f : Except ε β) = f a := rfl

/-- `newMats` preserves length. -/
theorem newMats_length : ∀ (m : Material) (l : List (Option Material)),
    (newMats m l).length = l.length := by
  intro m l
  induction l generalizing m with
  | nil => rfl
  | cons x tl ih => cases x <;> simp [newMats, ih]

/-- `restSwap` preserves length. -/
theorem restSwap_length : ∀ (d : Vec3) (rs : List ElemRest),
    ((restSwap d rs).2).length = rs.length := by
  intro d rs
  induction rs generalizing d with
  | nil => rfl
  | cons r tl ih => simp [restSwap, ih]

/-- The material thread over an appended list runs the prefix first. -/
theorem threadOut_append : ∀ (u v : List (Option Material)) (m : Material),
    threadOut m (u ++ v) = threadOut (threadOut m u) v := by
  intro u
  induction u with
  | nil => intro v m; rfl
  | cons x tl ih => intro v m; cases x <;> simp [threadOut, ih]

/-- The material loop over an appended list: the suffix sees the thread
left by the prefix. -/
theorem newMats_append : ∀ (u v : List (Option Material)) (m : Material),
    newMats m (u ++ v) = newMats m u ++ newMats (threadOut m u) v := by
  intro u
  induction u with
  | nil => intro v m; rfl
  | cons x tl ih => intro v m; cases x <;> simp [newMats, threadOut, ih]

/-- After the material loop, reading the thread backwards recovers the
loop's initial thread value, provided any material is present at all. -/
theorem threadOut_reverse_newMats : ∀ (t : List (Option Material)) (v a : Material),
    t.any (fun o => o.isSome) = true →
    threadOut a ((newMats v t).reverse) = v := by
  intro t
  induction t with
  | nil => intro v a h; simp at h
  | cons x tl ih =>
    intro v a h
    cases x with
    | none =>
      have h2 : tl.any (fun o => o.isSome) = true := by simpa using h
      rw [show newMats v (none :: tl) = none :: newMats v tl from rfl,
        List.reverse_cons, threadOut_append]
      exact ih v a h2
    | some w =>
      rw [show newMats v (some w :: tl) = some v :: newMats w tl from rfl,
        List.reverse_cons, threadOut_append]
      rfl

/-- A list with no material present ends (if nonempty) in `none`. -/
theorem all_none_getLast : ∀ (t : List (Option Material)),
    t.any (fun o => o.isSome) = false →
    ∀ x, t.getLast? = some x → x = none := by
  intro t
  induction t with
  | nil => intro _ x hx; simp at hx
  | cons y tl ih =>
    intro h x hx
    have hy : y = none := by
      cases y with
      | none => rfl
      | some w => simp [List.any_cons] at h
    cases tl with
    | nil =>
      subst hy
      simpa using hx.symm
    | cons z tl2 =>
      rw [List.getLast?_cons_cons] at hx
      rw [List.any_cons, Bool.or_eq_false_iff] at h
      exact ih h.2 x hx

/-- **Material round trip**: running the material loop forward, reversing,
and running it again with the recorded last material undoes the first run
(up to the reversal), provided the chain ends in a material-bearing
element. -/
theorem newMats_roundtrip : ∀ (l : List (Option Material)) (a m : Material),
    l.getLast? = some (some a) →
    newMats a ((newMats m l).reverse) = l.reverse := by
  intro l
  induction l with
  | nil => intro a m h; simp at h
  | cons x t ih =>
    intro a m h
    cases t with
    | nil =>
      have hx : x = some a := by simpa using h
      subst hx
      rfl
    | cons y t2 =>
      have h2 : (y :: t2).getLast? = some (some a) := by
        rw [List.getLast?_cons_cons] at h; exact h
      cases x with
      | none =>
        rw [show newMats m (none :: y :: t2) = none :: newMats m (y :: t2) from rfl,
          List.reverse_cons, newMats_append, ih a m h2,
          show ∀ th, newMats th [none] = [none] from fun th => rfl]
        simp
      | some w =>
        have hany : (y :: t2).any (fun o => o.isSome) = true := by
          by_contra hfalse
          have hf : (y :: t2).any (fun o => o.isSome) = false :=
            Bool.eq_false_iff.mpr hfalse
          have := all_none_getLast (y :: t2) hf (some a) h2
          simp at this
        rw [show newMats m (some w :: y :: t2) = some m :: newMats w (y :: t2) from rfl,
          List.reverse_cons, newMats_append, ih a w h2,
          show ∀ th, newMats th [some m] = [some th] from fun th => rfl,
          threadOut_reverse_newMats (y :: t2) w a hany]
        simp

/-- Material projection of a reassembled element list. -/
theorem zipWith_mkE_map_material : ∀ (ms : List (Option Material)) (rs : List ElemRest),
    ms.length = rs.length →
    (List.zipWith mkE ms rs).map (fun e => e.material) = ms := by
  intro ms
  induction ms with
  | nil => intro rs _; rfl
  | cons m tl ih =>
    intro rs h
    cases rs with
    | nil => simp at h
    | cons r rs2 => simp [mkE, ih rs2 (by simpa using h)]

/-- Rest projection of a reassembled element list. -/
theorem zipWith_mkE_map_rest : ∀ (ms : List (Option Material)) (rs : List ElemRest),
    ms.length = rs.length →
    (List.zipWith mkE ms rs).map Element.rest = rs := by
  intro ms
  induction ms with
  | nil =>
    intro rs h
    cases rs with
    | nil => rfl
    | cons r rs2 => simp at h
  | cons m tl ih =>
    intro rs h
    cases rs with
    | nil => simp at h
    | cons r rs2 => simp [mkE, Element.rest, ih rs2 (by simpa using h)]

/-- `zipWith` over equally long lists commutes with reversal. -/
theorem zipWith_reverse_of_length (f : α → β → γ) :
    ∀ (u : List α) (v : List β), u.length = v.length →
      (List.zipWith f u v).reverse = List.zipWith f u.reverse v.reverse := by
  intro u
  induction u with
  | nil => intro v _; simp
  | cons a u2 ih =>
    intro v h
    cases v with
    | nil => simp at h
    | cons b v2 =>
      have hl : u2.length = v2.length := by simpa using h
      simp only [List.zipWith_cons_cons, List.reverse_cons]
      rw [ih v2 hl, List.zipWith_append _ _ _ _ _ (by simp [hl])]
      rfl

/-- Splitting an element into material and rest and reassembling is the
identity. -/
theorem zipWith_mkE_assemble : ∀ es : List Element,
    List.zipWith mkE (es.map fun e => e.material) (es.map Element.rest) = es := by
  intro es
  induction es with
  | nil => rfl
  | cons e tl ih =>
    simp only [List.map_cons, List.zipWith_cons_cons, ih]
    rfl

/-- Reassembling original materials with doubly reverted rests is
`dblrev` elementwise. -/
theorem zipWith_mkE_dbl : ∀ es : List Element,
    List.zipWith mkE (es.map fun e => e.material) ((es.map Element.rest).map dblR)
      = es.map dblrev := by
  intro es
  induction es with
  | nil => rfl
  | cons e tl ih =>
    simp only [List.map_cons, List.zipWith_cons_cons, ih]
    rfl

/-- The material loop acts as `newMats` on materials and leaves the rests
alone. -/
theorem matSwap_snd : ∀ (m : Material) (es : List Element),
    (matSwap m es).2
      = List.zipWith mkE (newMats m (es.map fun e => e.material)) (es.map Element.rest) := by
  intro m es
  induction es generalizing m with
  | nil => rfl
  | cons e tl ih =>
    cases he : e.material with
    | some em =>
      simp only [matSwap, he, List.map_cons, newMats, List.zipWith_cons_cons, ih em]
      rfl
    | none =>
      simp only [matSwap, he, List.map_cons, newMats, List.zipWith_cons_cons, ih m]
      rw [show mkE none e.rest = e from by rw [← he]; rfl]

/-- The origin loop acts as `restSwap` on the rests and leaves the
materials alone. -/
theorem originSwap_eq : ∀ (d : Vec3) (es : List Element),
    originSwap d es
      = ((restSwap d (es.map Element.rest)).1,
         List.zipWith mkE (es.map fun e => e.material)
           ((restSwap d (es.map Element.rest)).2)) := by
  intro d es
  induction es generalizing d with
  | nil => rfl
  | cons e tl ih =>
    simp only [originSwap, restSwap, List.map_cons, List.zipWith_cons_cons, ih e.origin]
    rfl

/-- `restSwap` over an appended list threads the prefix into the suffix. -/
theorem restSwap_append : ∀ (u v : List ElemRest) (d : Vec3),
    restSwap d (u ++ v)
      = ((restSwap (restSwap d u).1 v).1,
         (restSwap d u).2 ++ (restSwap (restSwap d u).1 v).2) := by
  intro u
  induction u with
  | nil => intro v d; rfl
  | cons r u2 ih =>
    intro v d
    rw [show restSwap d ((r :: u2) ++ v)
        = ((restSwap r.origin (u2 ++ v)).1,
           { r with core := r.revcap r.core, origin := d }
             :: (restSwap r.origin (u2 ++ v)).2) from rfl]
    rw [ih v r.origin]
    rfl

/-- `restSwap` on a one-element list. -/
theorem restSwap_singleton (d : Vec3) (r : ElemRest) :
    restSwap d [r] = (r.origin, [{ r with core := r.revcap r.core, origin := d }]) := rfl

/-- The thread left by `restSwap` over `(r1 :: rs).reverse` is the head's
origin. -/
theorem restSwap_reverse_cons_fst (r1 : ElemRest) (rs : List ElemRest) (d : Vec3) :
    (restSwap d ((r1 :: rs).reverse)).1 = r1.origin := by
  rw [List.reverse_cons, restSwap_append, restSwap_singleton]

/-- **Geometry round trip**: reversing, running the origin loop from the
image origin, and then doing it again from the recorded first origin (the
new image origin) doubles each element's own reversal and restores every
origin. -/
theorem restSwap_roundtrip : ∀ (rs : List ElemRest) (r0 : ElemRest) (d : Vec3),
    (restSwap r0.origin (((restSwap d ((r0 :: rs).reverse)).2).reverse)).2
      = (r0 :: rs).map dblR := by
  intro rs
  induction rs with
  | nil =>
    intro r0 d
    simp [restSwap, dblR]
  | cons r1 rs2 ih =>
    intro r0 d
    have hinner : (restSwap d ((r0 :: r1 :: rs2).reverse)).2
        = (restSwap d ((r1 :: rs2).reverse)).2
          ++ [{ r0 with core := r0.revcap r0.core, origin := r1.origin }] := by
      rw [List.reverse_cons]
      simp only [restSwap_append, restSwap_singleton, restSwap_reverse_cons_fst]
    rw [hinner, List.reverse_append]
    rw [show ([{ r0 with core := r0.revcap r0.core, origin := r1.origin }].reverse
        ++ ((restSwap d ((r1 :: rs2).reverse)).2).reverse)
      = ({ r0 with core := r0.revcap r0.core, origin := r1.origin }
          :: ((restSwap d ((r1 :: rs2).reverse)).2).reverse) from rfl]
    rw [show restSwap r0.origin
        ({ r0 with core := r0.revcap r0.core, origin := r1.origin }
          :: ((restSwap d ((r1 :: rs2).reverse)).2).reverse)
      = ((restSwap r1.origin (((restSwap d ((r1 :: rs2).reverse)).2).reverse)).1,
         dblR r0 :: (restSwap r1.origin
           (((restSwap d ((r1 :: rs2).reverse)).2).reverse)).2) from rfl]
    rw [ih r1 d]
    rfl

/-- The material loop keeps the head's origin. -/
theorem matSwap_cons_head (m : Material) (e : Element) (es : List Element) :
    ∃ e1, ((matSwap m (e :: es)).2).head? = some e1 ∧ e1.origin = e.origin := by
  cases he : e.material with
  | some em => exact ⟨{ e with material := some m }, by simp [matSwap, he], rfl⟩
  | none => exact ⟨e, by simp [matSwap, he], rfl⟩

/-- `restSwap` stamps the incoming thread on the head element. -/
theorem restSwap_head (d : Vec3) (rs : List ElemRest) (hne : rs ≠ []) :
    ∃ r1, ((restSwap d rs).2).head? = some r1 ∧ r1.origin = d := by
  cases rs with
  | nil => exact absurd rfl hne
  | cons r tl => exact ⟨{ r with core := r.revcap r.core, origin := d }, rfl, rfl⟩

/-- Normal form of a successful `revert`: the object takes the last
element's material, the image takes the first element's origin, and the
element list is the material action composed with reversal and the
origin/orientation action. -/
theorem revert_nf (s : System) (e0 : Element) (tl : List Element)
    (hels : s.elements = e0 :: tl) (eL : Element)
    (hL : s.elements.getLast? = some eL) (mL : Material) (hML : eL.material = some mL) :
    s.revert = Except.ok
      { s with
        object := { s.object with material := mL },
        image := { s.image with origin := e0.origin },
        elements := List.zipWith mkE
          ((newMats s.object.material (s.elements.map fun e => e.material)).reverse)
          ((restSwap s.image.origin ((s.elements.map Element.rest).reverse)).2) } := by
  obtain ⟨e1, he1, ho1⟩ := matSwap_cons_head s.object.material e0 tl
  have hhead : ((matSwap s.object.material s.elements).2).head? = some e1 := by
    rw [hels]; exact he1
  have helems : (originSwap s.image.origin ((matSwap s.object.material s.elements).2.reverse)).2
      = List.zipWith mkE
          ((newMats s.object.material (s.elements.map fun e => e.material)).reverse)
          ((restSwap s.image.origin ((s.elements.map Element.rest).reverse)).2) := by
    rw [matSwap_snd]
    rw [zipWith_reverse_of_length mkE _ _ (by simp [newMats_length])]
    rw [originSwap_eq]
    rw [zipWith_mkE_map_material _ _ (by simp [newMats_length])]
    rw [zipWith_mkE_map_rest _ _ (by simp [newMats_length])]
  unfold System.revert
  split
  · next heq => rw [hL] at heq; exact absurd heq (by simp)
  · next eLast heq =>
    rw [hL] at heq
    injection heq with heq2
    subst heq2
    split
    · next heqm => rw [hML] at heqm; exact absurd heqm (by simp)
    · next lastM heqm =>
      rw [hML] at heqm
      injection heqm with heqm2
      subst heqm2
      dsimp only
      split
      · next heqh => rw [hhead] at heqh; exact absurd heqh (by simp)
      · next eh heqh =>
        rw [hhead] at heqh
        injection heqh with heqh2
        subst heqh2
        rw [helems, ho1]

/-- **C1 (amended).** For every System whose element chain is nonempty and
whose first and last elements carry a `material` attribute, calling
`revert()` twice restores the system exactly: the element order, every
element's origin and material, the object's material and the image origin
all return to their original values — the only residue is each element's
own `revert` capability applied twice to its internal orientation state
(which the claim does not constrain).  Without the material conditions the
first or second `revert()` raises instead of restoring (see the
counterexample). -/
theorem revert_revert_id (s : System) (e0 : Element) (h0 : s.elements.head? = some e0)
    (m0 : Material) (hm0 : e0.material = some m0) (eL : Element)
    (hL : s.elements.getLast? = some eL) (mL : Material) (hML : eL.material = some mL) :
    (s.revert >>= System.revert)
      = Except.ok { s with elements := s.elements.map dblrev } := by
  obtain ⟨tl, hels⟩ : ∃ tl, s.elements = e0 :: tl := by
    cases hse : s.elements with
    | nil => rw [hse] at h0; exact absurd h0 (by simp)
    | cons a tl2 =>
      rw [hse, List.head?_cons] at h0
      injection h0 with h0x
      exact ⟨tl2, by rw [h0x]⟩
  rw [revert_nf s e0 tl hels eL hL mL hML, except_ok_bind]
  have hlenA : ((newMats s.object.material (s.elements.map fun e => e.material)).reverse).length
      = ((restSwap s.image.origin ((s.elements.map Element.rest).reverse)).2).length := by
    simp [newMats_length, restSwap_length]
  have hmatsE : (List.zipWith mkE
        ((newMats s.object.material (s.elements.map fun e => e.material)).reverse)
        ((restSwap s.image.origin ((s.elements.map Element.rest).reverse)).2)).map
          (fun e => e.material)
      = (newMats s.object.material (s.elements.map fun e => e.material)).reverse :=
    zipWith_mkE_map_material _ _ hlenA
  have hrestE : (List.zipWith mkE
        ((newMats s.object.material (s.elements.map fun e => e.material)).reverse)
        ((restSwap s.image.origin ((s.elements.map Element.rest).reverse)).2)).map
          Element.rest
      = (restSwap s.image.origin ((s.elements.map Element.rest).reverse)).2 :=
    zipWith_mkE_map_rest _ _ hlenA
  have hmats_cons : s.elements.map (fun e => e.material)
      = some m0 :: tl.map (fun e => e.material) := by
    rw [hels, List.map_cons, hm0]
  have hgetA : ((newMats s.object.material (s.elements.map fun e => e.material)).reverse).getLast?
      = some (some s.object.material) := by
    rw [List.getLast?_reverse, hmats_cons]
    rfl
  obtain ⟨eL1, hL1, hML1⟩ : ∃ eL1, (List.zipWith mkE
        ((newMats s.object.material (s.elements.map fun e => e.material)).reverse)
        ((restSwap s.image.origin ((s.elements.map Element.rest).reverse)).2)).getLast?
          = some eL1 ∧ eL1.material = some s.object.material := by
    have h2 : ((List.zipWith mkE
          ((newMats s.object.material (s.elements.map fun e => e.material)).reverse)
          ((restSwap s.image.origin ((s.elements.map Element.rest).reverse)).2)).map
            (fun e => e.material)).getLast?
        = some (some s.object.material) := by
      rw [hmatsE]; exact hgetA
    rw [List.getLast?_map] at h2
    obtain ⟨eL1, hx, hy⟩ := Option.map_eq_some'.mp h2
    exact ⟨eL1, hx, hy⟩
  have hlenE : (List.zipWith mkE
        ((newMats s.object.material (s.elements.map fun e => e.material)).reverse)
        ((restSwap s.image.origin ((s.elements.map Element.rest).reverse)).2)).length
      = tl.length + 1 := by
    simp [List.length_zipWith, newMats_length, restSwap_length, hels]
  obtain ⟨e10, tl1, hE1⟩ := List.exists_cons_of_length_eq_add_one hlenE
  obtain ⟨b0, hb0, hb0o⟩ : ∃ b0,
      ((restSwap s.image.origin ((s.elements.map Element.rest).reverse)).2).head? = some b0
      ∧ b0.origin = s.image.origin := by
    apply restSwap_head
    rw [hels]
    simp
  have h10o : e10.origin = s.image.origin := by
    have h3 : ((List.zipWith mkE
          ((newMats s.object.material (s.elements.map fun e => e.material)).reverse)
          ((restSwap s.image.origin ((s.elements.map Element.rest).reverse)).2)).map
            Element.rest).head? = some b0 := by
      rw [hrestE]; exact hb0
    rw [List.head?_map, hE1] at h3
    simp only [List.head?_cons, Option.map_some'] at h3
    injection h3 with h4
    rw [show e10.origin = (Element.rest e10).origin from rfl, h4, hb0o]
  rw [revert_nf _ e10 tl1 hE1 eL1 hL1 s.object.material hML1]
  dsimp only
  rw [hmatsE, hrestE]
  have hmatsLast : (s.elements.map fun e => e.material).getLast? = some (some mL) := by
    rw [List.getLast?_map, hL, Option.map_some', hML]
  rw [newMats_roundtrip _ mL s.object.material hmatsLast, List.reverse_reverse]
  have hrt2 : (restSwap e0.origin
        (((restSwap s.image.origin ((s.elements.map Element.rest).reverse)).2).reverse)).2
      = (s.elements.map Element.rest).map dblR := by
    have h3 := restSwap_roundtrip (tl.map Element.rest) e0.rest s.image.origin
    rw [show (Element.rest e0) :: tl.map Element.rest = s.elements.map Element.rest from by
      rw [hels, List.map_cons]] at h3
    exact h3
  rw [hrt2, zipWith_mkE_dbl, h10o]

/-- Counterexample to C1 as stated (for *every* System): on a system whose
first chain element — an aperture — has no `material` attribute, the
first `revert()` succeeds and reorders the chain (the element origins
change from `[(0,0,1), (1,0,2)]` to `[(0,0,7), (1,0,2)]`), and the second
`revert()` fails with `AttributeError` at `self.elements[-1].material`
because the aperture is now last; so calling `revert()` twice raises and
leaves the system reversed rather than restoring it. -/
theorem revert_revert_counterexample :
    (sRevBad.revert >>= System.revert) = Except.error Err.attributeError
    ∧ (sRevBad.revert).map (fun s1 => s1.elements.map fun e => e.origin)
        = Except.ok [(0, 0, 7), (1, 0, 2)]
    ∧ sRevBad.elements.map (fun e => e.origin) = [(0, 0, 1), (1, 0, 2)] :=
  ⟨rfl, rfl, rfl⟩

/-- Witness for C1 (amended) on the concrete two-surface system. -/
theorem revert_revert_id_witness :
    sRev.elements.head? = some surfW1 ∧ surfW1.material = some ⟨10⟩
    ∧ sRev.elements.getLast? = some surfW2 ∧ surfW2.material = some ⟨20⟩
    ∧ (sRev.revert >>= System.revert)
        = Except.ok { sRev with elements := sRev.elements.map dblrev } :=
  ⟨rfl, rfl, rfl, rfl, revert_revert_id sRev surfW1 rfl ⟨10⟩ rfl surfW2 rfl ⟨20⟩ rfl⟩

/-- Witness for C9 on concrete distinct references. -/
theorem addSys_assoc_witness :
    (0 : Ref) ≠ 2 ∧ (0 : Ref) ≠ 1
    ∧ ((addSys (addSys 0 2 σW2).1 1 (addSys 0 2 σW2).2).2
        ((addSys (addSys 0 2 σW2).1 1 (addSys 0 2 σW2).2).1)).elements
      = ((addSys 0 (addSys 2 1 σW2).1 (addSys 2 1 σW2).2).2
          ((addSys 0 (addSys 2 1 σW2).1 (addSys 2 1 σW2).2).1)).elements :=
  ⟨by decide, by decide, addSys_assoc 0 2 1 σW2 (by decide) (by decide)⟩

end Rayopt

namespace Rayopt

/-! ## Claim C4: the paraxial chief extrapolation -/

/-- **C4.** In paraxial-chief mode the chief launch coordinate is the
secant-like extrapolation `-d·f(0)/(f(d)-f(0))` computed componentwise
from exactly two evaluations of `stop_for_pos` — at the origin `(0,0)`
and at the probe point `(d,d)` with the fixed hand-tuned step
`d = probeStep = 1e-3`: (i) the formula; (ii) any function agreeing with
`stop_for_pos` at just those two points yields the same chief (no other
evaluation point matters); (iii) `chief_and_marginal` in paraxial-chief
mode is exactly this chief fed to the marginal phase. -/
theorem paraxial_chief_formula (s : System) (h : ℚ × ℚ) (r : Rays)
    (a1 a2 b1 b2 : ℚ)
    (hf0 : s.stop_for_pos h r 0 0 = Except.ok (Val.v [a1, a2]))
    (hfd : s.stop_for_pos h r probeStep probeStep = Except.ok (Val.v [b1, b2]))
    (hcount : s.elements.countP (fun e => e.cls == ElemClass.aperture) = 1) :
    paraxialChief (s.stop_for_pos h r)
      = Except.ok (Val.v [-probeStep * a1 / (b1 - a1), -probeStep * a2 / (b2 - a2)])
    ∧ (∀ g : ℚ → ℚ → Except Err Val,
        g 0 0 = s.stop_for_pos h r 0 0 →
        g probeStep probeStep = s.stop_for_pos h r probeStep probeStep →
        paraxialChief g = paraxialChief (s.stop_for_pos h r))
    ∧ ∀ (sv : Solvers) (pm : Bool),
        s.chief_and_marginal sv h r true pm
          = (paraxialChief (s.stop_for_pos h r) >>= fun chief =>
              marginalPhase sv (s.stop_for_pos h r) chief pm) := by
  refine ⟨?_, ?_, ?_⟩
  · unfold paraxialChief
    rw [hf0, hfd]
    simp [Bind.bind, Except.bind, vmul, vsub, vdiv, vbin, neg_mul]
  · intro g hg0 hgd
    unfold paraxialChief
    rw [hg0, hgd]
  · intro sv pm
    unfold System.chief_and_marginal
    rw [if_pos hcount]
    rfl

/-- Evaluation of `stop_for_pos` on the concrete one-aperture system: the
single launched ray lands at `(x, y)` on the unit-radius stop. -/
theorem sCM_stop_for_pos (x y : ℚ) :
    sCM.stop_for_pos (0, 0) raysW x y = Except.ok (Val.v [x, y]) := by
  rw [show sCM.stop_for_pos (0, 0) raysW x y
      = Except.ok (Val.v [x / 1, y / 1]) from rfl]
  norm_num

/-- Witness for C4 on the concrete one-aperture system, where
`stop_for_pos(x, y) = [x, y]`. -/
theorem paraxial_chief_formula_witness :
    sCM.stop_for_pos (0, 0) raysW 0 0 = Except.ok (Val.v [0, 0])
    ∧ sCM.stop_for_pos (0, 0) raysW probeStep probeStep
        = Except.ok (Val.v [probeStep, probeStep])
    ∧ sCM.elements.countP (fun e => e.cls == ElemClass.aperture) = 1
    ∧ (paraxialChief (sCM.stop_for_pos (0, 0) raysW)
        = Except.ok (Val.v [-probeStep * 0 / (probeStep - 0), -probeStep * 0 / (probeStep - 0)])
       ∧ (∀ g : ℚ → ℚ → Except Err Val,
           g 0 0 = sCM.stop_for_pos (0, 0) raysW 0 0 →
           g probeStep probeStep = sCM.stop_for_pos (0, 0) raysW probeStep probeStep →
           paraxialChief g = paraxialChief (sCM.stop_for_pos (0, 0) raysW))
       ∧ ∀ (sv : Solvers) (pm : Bool),
           sCM.chief_and_marginal sv (0, 0) raysW true pm
             = (paraxialChief (sCM.stop_for_pos (0, 0) raysW) >>= fun chief =>
                 marginalPhase sv (sCM.stop_for_pos (0, 0) raysW) chief pm)) :=
  ⟨sCM_stop_for_pos 0 0, sCM_stop_for_pos probeStep probeStep, rfl,
   paraxial_chief_formula sCM (0, 0) raysW 0 0 probeStep probeStep
     (sCM_stop_for_pos 0 0) (sCM_stop_for_pos probeStep probeStep) rfl⟩

end Rayopt

namespace Rayopt

/-! ## Claim C8: shape and order of the aiming solver's output -/

/-- A failing `Except` never feeds its continuation. -/
theorem except_error_bind (e : ε) (f : α → Except ε β) :
    (Except.error e >>= f : Except ε β) = Except.error e := rfl

/-- A successful `stop_for_pos` value is always a length-2 array. -/
theorem stop_for_pos_shape (s : System) (h : ℚ × ℚ) (r : Rays) (x y : ℚ) (v : Val)
    (hv : s.stop_for_pos h r x y = Except.ok v) : ∃ a b, v = Val.v [a, b] := by
  unfold System.stop_for_pos at hv
  dsimp only at hv
  split at hv
  · exact absurd hv (by simp)
  · split at hv
    · exact absurd hv (by simp)
    · injection hv with hv2
      exact ⟨_, _, hv2.symm⟩

/-- Adding any numpy value to a length-2 array either fails or produces a
length-2 array of componentwise sums, with the matching differences on
subtraction. -/
theorem vadd_vsub_v2 (cx cy : ℚ) (dm : Val) (mp : Val)
    (hmp : vadd (Val.v [cx, cy]) dm = Except.ok mp) :
    ∃ d1 d2, mp = Val.v [cx + d1, cy + d2]
      ∧ vsub (Val.v [cx, cy]) dm = Except.ok (Val.v [cx - d1, cy - d2]) := by
  cases dm with
  | s q =>
    refine ⟨q, q, ?_, rfl⟩
    injection hmp with h2
    exact h2.symm
  | v l =>
    match l with
    | [] => exact absurd hmp (by simp [vadd, vbin])
    | [a] => exact absurd hmp (by simp [vadd, vbin])
    | a :: b :: c :: tl => exact absurd hmp (by simp [vadd, vbin])
    | [a, b] =>
      refine ⟨a, b, ?_, rfl⟩
      injection hmp with h2
      exact h2.symm

/-- Whichever chief strategy succeeds hands the marginal phase a length-2
array (the paraxial formula inherits the shape of `stop_for_pos`; `fsolve`
returns the shape of its initial guess). -/
theorem chief_value_shape (s : System) (hh : ℚ × ℚ) (r : Rays) (sv : Solvers)
    (pc : Bool) (c : Val)
    (hc : (if pc then paraxialChief (s.stop_for_pos hh r)
           else exactChief sv (s.stop_for_pos hh r)) = Except.ok c) :
    ∃ cx cy, c = Val.v [cx, cy] := by
  cases pc with
  | true =>
    rw [if_pos rfl] at hc
    unfold paraxialChief at hc
    cases hf0 : s.stop_for_pos hh r 0 0 with
    | error e => rw [hf0, except_error_bind] at hc; exact absurd hc (by simp)
    | ok v0 =>
      obtain ⟨a1, a2, hv0⟩ := stop_for_pos_shape _ _ _ _ _ _ hf0
      subst hv0
      rw [hf0, except_ok_bind] at hc
      cases hfd : s.stop_for_pos hh r probeStep probeStep with
      | error e => rw [hfd, except_error_bind] at hc; exact absurd hc (by simp)
      | ok vd =>
        obtain ⟨b1, b2, hvd⟩ := stop_for_pos_shape _ _ _ _ _ _ hfd
        subst hvd
        rw [hfd, except_ok_bind] at hc
        rw [show vmul (Val.s (-probeStep)) (Val.v [a1, a2])
            = Except.ok (Val.v [-probeStep * a1, -probeStep * a2]) from rfl,
          except_ok_bind] at hc
        rw [show vsub (Val.v [b1, b2]) (Val.v [a1, a2])
            = Except.ok (Val.v [b1 - a1, b2 - a2]) from rfl, except_ok_bind] at hc
        rw [show vdiv (Val.v [-probeStep * a1, -probeStep * a2]) (Val.v [b1 - a1, b2 - a2])
            = Except.ok (Val.v [-probeStep * a1 / (b1 - a1), -probeStep * a2 / (b2 - a2)])
          from rfl] at hc
        injection hc with hc2
        exact ⟨_, _, hc2.symm⟩
  | false =>
    rw [if_neg (by simp)] at hc
    unfold exactChief at hc
    cases hfs : sv.fsolve (fun p => s.stop_for_pos hh r p.1 p.2) (0, 0) (1 / 100) probeStep with
    | error e => rw [hfs, except_error_bind] at hc; exact absurd hc (by simp)
    | ok cr =>
      rw [hfs, except_ok_bind] at hc
      injection hc with hc2
      exact ⟨_, _, hc2.symm⟩

/-- The marginal phase returns the chief unchanged as first component and
four *scalars* `(+x, −x, +y, −y)`: in paraxial mode the componentwise
`chief ± dmarg` coordinates, in exact mode the four `newton` roots aiming
at pupil coordinate `∓1` on the corresponding axis. -/
theorem marginalPhase_shape (sv : Solvers) (f : ℚ → ℚ → Except Err Val)
    (chief : Val) (cx cy : ℚ) (hch : chief = Val.v [cx, cy]) (pm : Bool)
    (res : Val × (Val × Val × Val × Val))
    (hok : marginalPhase sv f chief pm = Except.ok res) :
    res.1 = Val.v [cx, cy]
    ∧ (∃ px nx py ny, res.2 = (Val.s px, Val.s nx, Val.s py, Val.s ny))
    ∧ (pm = true → ∃ d1 d2,
        res.2 = (Val.s (cx + d1), Val.s (cx - d1), Val.s (cy + d2), Val.s (cy - d2)))
    ∧ (pm = false →
        ∃ px nx py ny, res.2 = (Val.s px, Val.s nx, Val.s py, Val.s ny)
          ∧ sv.newton (fun x => do Except.ok ((← vidxq (← f x cy) 0) - 1)) (cx + probeStep)
              = Except.ok px
          ∧ sv.newton (fun x => do Except.ok ((← vidxq (← f x cy) 0) + 1)) (cx - probeStep)
              = Except.ok nx
          ∧ sv.newton (fun y => do Except.ok ((← vidxq (← f cx y) 1) - 1)) (cy + probeStep)
              = Except.ok py
          ∧ sv.newton (fun y => do Except.ok ((← vidxq (← f cx y) 1) + 1)) (cy - probeStep)
              = Except.ok ny) := by
  subst hch
  cases pm with
  | true =>
    unfold marginalPhase at hok
    rw [if_pos rfl] at hok
    rw [show vadd (Val.v [cx, cy]) (Val.s probeStep)
        = Except.ok (Val.v [cx + probeStep, cy + probeStep]) from rfl,
      except_ok_bind] at hok
    rw [show vunpack2 (Val.v [cx + probeStep, cy + probeStep])
        = Except.ok (cx + probeStep, cy + probeStep) from rfl, except_ok_bind] at hok
    dsimp only at hok
    cases hf1 : f (cx + probeStep) (cy + probeStep) with
    | error e =>
      rw [hf1, except_error_bind] at hok
      exact absurd hok (by simp)
    | ok v1 =>
      rw [hf1, except_ok_bind] at hok
      rw [show vunpack2 (Val.v [cx, cy]) = Except.ok (cx, cy) from rfl,
        except_ok_bind] at hok
      dsimp only at hok
      cases hf0 : f cx cy with
      | error e =>
        rw [hf0, except_error_bind] at hok
        exact absurd hok (by simp)
      | ok v0 =>
        rw [hf0, except_ok_bind] at hok
        cases hden : vsub v1 v0 with
        | error e =>
          rw [hden, except_error_bind] at hok
          exact absurd hok (by simp)
        | ok den =>
          rw [hden, except_ok_bind] at hok
          cases hdm : vdiv (Val.s probeStep) den with
          | error e =>
            rw [hdm, except_error_bind] at hok
            exact absurd hok (by simp)
          | ok dm =>
            rw [hdm, except_ok_bind] at hok
            cases hmp : vadd (Val.v [cx, cy]) dm with
            | error e =>
              rw [hmp, except_error_bind] at hok
              exact absurd hok (by simp)
            | ok mp =>
              obtain ⟨d1, d2, hmp2, hmn⟩ := vadd_vsub_v2 cx cy dm mp hmp
              subst hmp2
              rw [hmp, except_ok_bind, hmn, except_ok_bind] at hok
              rw [show vunpack2 (Val.v [cx + d1, cy + d2])
                  = Except.ok (cx + d1, cy + d2) from rfl, except_ok_bind] at hok
              rw [show vunpack2 (Val.v [cx - d1, cy - d2])
                  = Except.ok (cx - d1, cy - d2) from rfl, except_ok_bind] at hok
              dsimp only at hok
              injection hok with hok2
              subst hok2
              exact ⟨rfl, ⟨_, _, _, _, rfl⟩, fun _ => ⟨d1, d2, rfl⟩,
                fun hf => by cases hf⟩
  | false =>
    unfold marginalPhase at hok
    rw [if_neg (by simp)] at hok
    rw [show vidxq (Val.v [cx, cy]) 0 = Except.ok cx from rfl, except_ok_bind] at hok
    rw [show vidxq (Val.v [cx, cy]) 1 = Except.ok cy from rfl, except_ok_bind] at hok
    cases hpx : sv.newton (fun x => do Except.ok ((← vidxq (← f x cy) 0) - 1))
        (cx + probeStep) with
    | error e =>
      rw [hpx, except_error_bind] at hok
      exact absurd hok (by simp)
    | ok px =>
      rw [hpx, except_ok_bind] at hok
      cases hnx : sv.newton (fun x => do Except.ok ((← vidxq (← f x cy) 0) + 1))
          (cx - probeStep) with
      | error e =>
        rw [hnx, except_error_bind] at hok
        exact absurd hok (by simp)
      | ok nx =>
        rw [hnx, except_ok_bind] at hok
        cases hpy : sv.newton (fun y => do Except.ok ((← vidxq (← f cx y) 1) - 1))
            (cy + probeStep) with
        | error e =>
          rw [hpy, except_error_bind] at hok
          exact absurd hok (by simp)
        | ok py =>
          rw [hpy, except_ok_bind] at hok
          cases hny : sv.newton (fun y => do Except.ok ((← vidxq (← f cx y) 1) + 1))
              (cy - probeStep) with
          | error e =>
            rw [hny, except_error_bind] at hok
            exact absurd hok (by simp)
          | ok ny =>
            rw [hny, except_ok_bind] at hok
            injection hok with hok2
            subst hok2
            refine ⟨rfl, ⟨px, nx, py, ny, rfl⟩, ?_, ?_⟩
            · intro hf; cases hf
            · intro hf
              exact ⟨px, nx, py, ny, rfl, rfl, rfl, rfl, rfl⟩

/-- **C8 (amended).** Whenever `chief_and_marginal` succeeds, it returns a
pair whose first component is the chief launch coordinate as a 2-vector
and whose second component is a tuple of four marginal *scalars* —
not 2-vectors — ordered `(+x, −x, +y, −y)`: in the paraxial marginal
strategy they are `chief[0] ± dmarg[0]` and `chief[1] ± dmarg[1]`, and in
the exact strategy they are the four `newton` roots driving the pupil
coordinate on the respective axis to `∓1`, holding the other coordinate
at the chief value. -/
theorem chief_and_marginal_output_shape (s : System) (sv : Solvers) (hh : ℚ × ℚ)
    (r : Rays) (pc pm : Bool) (res : Val × (Val × Val × Val × Val))
    (hok : s.chief_and_marginal sv hh r pc pm = Except.ok res) :
    (∃ cx cy, res.1 = Val.v [cx, cy])
    ∧ (∃ px nx py ny, res.2 = (Val.s px, Val.s nx, Val.s py, Val.s ny))
    ∧ (pm = true → ∃ cx cy d1 d2, res.1 = Val.v [cx, cy]
        ∧ res.2 = (Val.s (cx + d1), Val.s (cx - d1), Val.s (cy + d2), Val.s (cy - d2)))
    ∧ (pm = false → ∃ cx cy, res.1 = Val.v [cx, cy]
        ∧ ∃ px nx py ny, res.2 = (Val.s px, Val.s nx, Val.s py, Val.s ny)
          ∧ sv.newton (fun x => do
              Except.ok ((← vidxq (← s.stop_for_pos hh r x cy) 0) - 1)) (cx + probeStep)
              = Except.ok px
          ∧ sv.newton (fun x => do
              Except.ok ((← vidxq (← s.stop_for_pos hh r x cy) 0) + 1)) (cx - probeStep)
              = Except.ok nx
          ∧ sv.newton (fun y => do
              Except.ok ((← vidxq (← s.stop_for_pos hh r cx y) 1) - 1)) (cy + probeStep)
              = Except.ok py
          ∧ sv.newton (fun y => do
              Except.ok ((← vidxq (← s.stop_for_pos hh r cx y) 1) + 1)) (cy - probeStep)
              = Except.ok ny) := by
  unfold System.chief_and_marginal at hok
  by_cases hcount : s.elements.countP (fun e => e.cls == ElemClass.aperture) = 1
  case neg =>
    rw [if_neg hcount] at hok
    exact absurd hok (by simp)
  rw [if_pos hcount] at hok
  dsimp only at hok
  cases pc with
  | true =>
    rw [if_pos rfl] at hok
    cases hcv : paraxialChief (s.stop_for_pos hh r) with
    | error e =>
      rw [hcv, except_error_bind] at hok
      exact absurd hok (by simp)
    | ok c =>
      rw [hcv, except_ok_bind] at hok
      obtain ⟨cx, cy, hcxy⟩ := chief_value_shape s hh r sv true c
        (by rw [if_pos rfl]; exact hcv)
      obtain ⟨h1, h2, h3, h4⟩ := marginalPhase_shape sv _ c cx cy hcxy pm res hok
      refine ⟨⟨cx, cy, h1⟩, h2, ?_, ?_⟩
      · intro hpm
        obtain ⟨d1, d2, hd⟩ := h3 hpm
        exact ⟨cx, cy, d1, d2, h1, hd⟩
      · intro hpm
        obtain ⟨px, nx, py, ny, h5, h6, h7, h8, h9⟩ := h4 hpm
        exact ⟨cx, cy, h1, px, nx, py, ny, h5, h6, h7, h8, h9⟩
  | false =>
    rw [if_neg (by simp)] at hok
    cases hcv : exactChief sv (s.stop_for_pos hh r) with
    | error e =>
      rw [hcv, except_error_bind] at hok
      exact absurd hok (by simp)
    | ok c =>
      rw [hcv, except_ok_bind] at hok
      obtain ⟨cx, cy, hcxy⟩ := chief_value_shape s hh r sv false c
        (by rw [if_neg (by simp)]; exact hcv)
      obtain ⟨h1, h2, h3, h4⟩ := marginalPhase_shape sv _ c cx cy hcxy pm res hok
      refine ⟨⟨cx, cy, h1⟩, h2, ?_, ?_⟩
      · intro hpm
        obtain ⟨d1, d2, hd⟩ := h3 hpm
        exact ⟨cx, cy, d1, d2, h1, hd⟩
      · intro hpm
        obtain ⟨px, nx, py, ny, h5, h6, h7, h8, h9⟩ := h4 hpm
        exact ⟨cx, cy, h1, px, nx, py, ny, h5, h6, h7, h8, h9⟩

/-- Full evaluation of the aiming solver (paraxial chief and marginal) on
the concrete one-aperture system `sCM` at field height `(0, 0)`: the chief
is the 2-vector `[0, 0]` and the four marginals are the scalars
`1, −1, 1, −1`. -/
theorem sCM_chief_and_marginal_eval :
    sCM.chief_and_marginal svId (0, 0) raysW true true
      = Except.ok (Val.v [0, 0], (Val.s 1, Val.s (-1), Val.s 1, Val.s (-1))) := by
  have hch : paraxialChief (sCM.stop_for_pos (0, 0) raysW) = Except.ok (Val.v [0, 0]) := by
    unfold paraxialChief
    rw [sCM_stop_for_pos 0 0, except_ok_bind, sCM_stop_for_pos probeStep probeStep,
      except_ok_bind]
    rw [show vmul (Val.s (-probeStep)) (Val.v [0, 0])
        = Except.ok (Val.v [-probeStep * 0, -probeStep * 0]) from rfl, except_ok_bind]
    rw [show vsub (Val.v [probeStep, probeStep]) (Val.v [(0 : ℚ), 0])
        = Except.ok (Val.v [probeStep - 0, probeStep - 0]) from rfl, except_ok_bind]
    rw [show vdiv (Val.v [-probeStep * 0, -probeStep * 0])
          (Val.v [probeStep - 0, probeStep - 0])
        = Except.ok (Val.v [-probeStep * 0 / (probeStep - 0),
            -probeStep * 0 / (probeStep - 0)]) from rfl]
    norm_num
  have hmarg : marginalPhase svId (sCM.stop_for_pos (0, 0) raysW) (Val.v [0, 0]) true
      = Except.ok (Val.v [0, 0], (Val.s 1, Val.s (-1), Val.s 1, Val.s (-1))) := by
    unfold marginalPhase
    rw [if_pos rfl]
    rw [show vadd (Val.v [(0 : ℚ), 0]) (Val.s probeStep)
        = Except.ok (Val.v [0 + probeStep, 0 + probeStep]) from rfl, except_ok_bind]
    rw [show vunpack2 (Val.v [(0 : ℚ) + probeStep, 0 + probeStep])
        = Except.ok ((0 : ℚ) + probeStep, (0 : ℚ) + probeStep) from rfl, except_ok_bind]
    dsimp only
    rw [sCM_stop_for_pos (0 + probeStep) (0 + probeStep), except_ok_bind]
    rw [show vunpack2 (Val.v [(0 : ℚ), 0]) = Except.ok ((0 : ℚ), (0 : ℚ)) from rfl,
      except_ok_bind]
    dsimp only
    rw [sCM_stop_for_pos 0 0, except_ok_bind]
    rw [show vsub (Val.v [(0 : ℚ) + probeStep, 0 + probeStep]) (Val.v [(0 : ℚ), 0])
        = Except.ok (Val.v [0 + probeStep - 0, 0 + probeStep - 0]) from rfl,
      except_ok_bind]
    rw [show vdiv (Val.s probeStep) (Val.v [(0 : ℚ) + probeStep - 0, 0 + probeStep - 0])
        = Except.ok (Val.v [probeStep / (0 + probeStep - 0),
            probeStep / (0 + probeStep - 0)]) from rfl, except_ok_bind]
    rw [show vadd (Val.v [(0 : ℚ), 0])
          (Val.v [probeStep / ((0 : ℚ) + probeStep - 0), probeStep / ((0 : ℚ) + probeStep - 0)])
        = Except.ok (Val.v [0 + probeStep / (0 + probeStep - 0),
            0 + probeStep / (0 + probeStep - 0)]) from rfl, except_ok_bind]
    rw [show vsub (Val.v [(0 : ℚ), 0])
          (Val.v [probeStep / ((0 : ℚ) + probeStep - 0), probeStep / ((0 : ℚ) + probeStep - 0)])
        = Except.ok (Val.v [0 - probeStep / (0 + probeStep - 0),
            0 - probeStep / (0 + probeStep - 0)]) from rfl, except_ok_bind]
    rw [show vunpack2 (Val.v [(0 : ℚ) + probeStep / ((0 : ℚ) + probeStep - 0),
          0 + probeStep / (0 + probeStep - 0)])
        = Except.ok ((0 : ℚ) + probeStep / ((0 : ℚ) + probeStep - 0),
            (0 : ℚ) + probeStep / ((0 : ℚ) + probeStep - 0)) from rfl, except_ok_bind]
    rw [show vunpack2 (Val.v [(0 : ℚ) - probeStep / ((0 : ℚ) + probeStep - 0),
          0 - probeStep / (0 + probeStep - 0)])
        = Except.ok ((0 : ℚ) - probeStep / ((0 : ℚ) + probeStep - 0),
            (0 : ℚ) - probeStep / ((0 : ℚ) + probeStep - 0)) from rfl, except_ok_bind]
    dsimp only
    norm_num [probeStep]
  unfold System.chief_and_marginal
  rw [if_pos (show List.countP (fun e => e.cls == ElemClass.aperture) sCM.elements = 1
    from rfl)]
  dsimp only
  rw [if_pos (show (true : Bool) = true from rfl)]
  rw [hch, except_ok_bind, hmarg]

/-- Counterexample to C8 as stated: on a concrete successful run of
`chief_and_marginal` (in the paraxial strategies; the exact `newton`
marginals are scalar roots as well), each of the four marginal components
is a numpy *scalar*, not a 2-vector — only the chief is a 2-vector.  The
claim's "tuple of four marginal 2-vectors" is false. -/
theorem chief_and_marginal_marginals_not_vec2 :
    sCM.chief_and_marginal svId (0, 0) raysW true true
      = Except.ok (Val.v [0, 0], (Val.s 1, Val.s (-1), Val.s 1, Val.s (-1)))
    ∧ Val.isVec2 (Val.s 1) = false ∧ Val.isVec2 (Val.s (-1)) = false
    ∧ Val.isVec2 (Val.v [0, 0]) = true :=
  ⟨sCM_chief_and_marginal_eval, rfl, rfl, rfl⟩

/-- Witness for C8 (amended) on the concrete run. -/
theorem chief_and_marginal_output_shape_witness :
    sCM.chief_and_marginal svId (0, 0) raysW true true
      = Except.ok (Val.v [0, 0], (Val.s 1, Val.s (-1), Val.s 1, Val.s (-1)))
    ∧ ((∃ cx cy, (Val.v [(0 : ℚ), 0],
          (Val.s (1 : ℚ), Val.s (-1 : ℚ), Val.s (1 : ℚ), Val.s (-1 : ℚ))).1 = Val.v [cx, cy])
       ∧ (∃ px nx py ny, (Val.v [(0 : ℚ), 0],
          (Val.s (1 : ℚ), Val.s (-1 : ℚ), Val.s (1 : ℚ), Val.s (-1 : ℚ))).2
            = (Val.s px, Val.s nx, Val.s py, Val.s ny))
       ∧ (true = true → ∃ cx cy d1 d2, (Val.v [(0 : ℚ), 0],
          (Val.s (1 : ℚ), Val.s (-1 : ℚ), Val.s (1 : ℚ), Val.s (-1 : ℚ))).1 = Val.v [cx, cy]
            ∧ (Val.v [(0 : ℚ), 0],
               (Val.s (1 : ℚ), Val.s (-1 : ℚ), Val.s (1 : ℚ), Val.s (-1 : ℚ))).2
              = (Val.s (cx + d1), Val.s (cx - d1), Val.s (cy + d2), Val.s (cy - d2)))
       ∧ (true = false → ∃ cx cy, (Val.v [(0 : ℚ), 0],
          (Val.s (1 : ℚ), Val.s (-1 : ℚ), Val.s (1 : ℚ), Val.s (-1 : ℚ))).1 = Val.v [cx, cy]
            ∧ ∃ px nx py ny, (Val.v [(0 : ℚ), 0],
               (Val.s (1 : ℚ), Val.s (-1 : ℚ), Val.s (1 : ℚ), Val.s (-1 : ℚ))).2
                = (Val.s px, Val.s nx, Val.s py, Val.s ny)
              ∧ svId.newton (fun x => do
                  Except.ok ((← vidxq (← sCM.stop_for_pos (0, 0) raysW x cy) 0) - 1))
                  (cx + probeStep) = Except.ok px
              ∧ svId.newton (fun x => do
                  Except.ok ((← vidxq (← sCM.stop_for_pos (0, 0) raysW x cy) 0) + 1))
                  (cx - probeStep) = Except.ok nx
              ∧ svId.newton (fun y => do
                  Except.ok ((← vidxq (← sCM.stop_for_pos (0, 0) raysW cx y) 1) - 1))
                  (cy + probeStep) = Except.ok py
              ∧ svId.newton (fun y => do
                  Except.ok ((← vidxq (← sCM.stop_for_pos (0, 0) raysW cx y) 1) + 1))
                  (cy - probeStep) = Except.ok ny)) :=
  ⟨sCM_chief_and_marginal_eval,
   chief_and_marginal_output_shape sCM svId (0, 0) raysW true true
     (Val.v [0, 0], (Val.s 1, Val.s (-1), Val.s 1, Val.s (-1)))
     sCM_chief_and_marginal_eval⟩

end Rayopt
